import Mathlib

/-!
Verification development for the hybrid retrieval core of the zzongAI
repository (`src/rag/vector_db.py` and `src/rag/agents/retriever_agent.py`).

The Python code is shallowly embedded as executable Lean definitions:

* strings are Lean `String`s, but every character-level operation
  (lower-casing, trimming, tokenization, substring search) is implemented
  on `List Char` so that the kernel can evaluate it;
* Python floats are modelled as exact rationals `ℚ`;
* a Python dict record produced by the searches is the structure `SongRec`,
  whose `Option` fields model keys that may be absent from the dict;
* the FAISS call `self.index.search` is an external library call; its
  response for the query is passed to `search_similar` as an explicit list
  of `(label, distance)` pairs, exactly the data the Python code consumes
  (FAISS labels are integers and are `-1` when the index holds fewer
  vectors than were requested, hence `Int` and not `Nat`);
* `sorted(..., key=...)` and `Counter.most_common` are stable sorts by a
  key, modelled by `List.insertionSort` with the corresponding total
  preorder (insertion sort is stable, like CPython's sort);
* Python dicts preserve insertion order, so the `combined` dict of
  `_combine_results` and the `Counter` of `search_by_keywords` are
  association lists in insertion order.
-/

/-- One corpus entry, as normalized by the loader (title, feature summary,
lyrics; missing fields default to the empty string). -/
structure Doc where
  title : String
  feature_summary : String
  lyrics : String
deriving DecidableEq, Inhabited

/-- A result record, as built by `search_similar` / `search_by_keywords` /
`_combine_results`.  `Option` fields model dict keys that may be absent:
`result.get(key, default)` is `Option.getD`. -/
structure SongRec where
  index : Int
  distance : Option ℚ
  keyword_score : Option Nat
  combined_score : Option ℚ
  title : String
  feature_summary : String
  lyrics : String
deriving DecidableEq

/-- Python `str.lower()` (ASCII case folding, as Lean's `Char.toLower`). -/
def lowerString (s : String) : String :=
  String.mk (s.data.map Char.toLower)

/-- Python `str.strip()`: remove leading and trailing whitespace. -/
def trimString (s : String) : String :=
  String.mk (((s.data.dropWhile Char.isWhitespace).reverse.dropWhile
    Char.isWhitespace).reverse)

/-- A word character for the regex `\b\w+\b`: letters, digits, underscore. -/
def wordChar (c : Char) : Bool :=
  c.isAlphanum || c == '_'

/-- Helper for `findWords`: scan the character list, accumulating the
current (reversed) run of word characters. -/
def findWordsAux : List Char → List Char → List String
  | [], acc => if acc.isEmpty then [] else [String.mk acc.reverse]
  | c :: cs, acc =>
    if wordChar c then findWordsAux cs (c :: acc)
    else if acc.isEmpty then findWordsAux cs []
    else String.mk acc.reverse :: findWordsAux cs []

/-- Python `re.findall(r'\b\w+\b', s)`: the maximal runs of word
characters of `s`, in order. -/
def findWords (s : String) : List String :=
  findWordsAux s.data []

/-- From `_build_keyword_index`: the text of one song (list-shaped metadata):
`f"{title} {feature} {lyrics}".lower()`. -/
def songText (d : Doc) : String :=
  lowerString (d.title ++ " " ++ d.feature_summary ++ " " ++ d.lyrics)

/-- The tokens of a document that get indexed: words of its searchable
text of length at least 2. -/
def indexTokensOf (d : Doc) : List String :=
  (findWords (songText d)).filter (fun w => 2 ≤ w.length)

/-- Model of `self.keyword_index[w]`: the posting list of token `w`, i.e. the
indices of the documents whose indexed tokens contain `w`.  The Python
loop scans documents in order and appends each index once, so the list is
the ascending list of matching indices (empty when `w` was never indexed,
which also models `w not in self.keyword_index`). -/
def postingList (corpus : List Doc) (w : String) : List Nat :=
  (List.range corpus.length).filter
    (fun i => decide (w ∈ indexTokensOf (corpus.getD i default)))

/-- The stop-word set of `_extract_keywords`. -/
def stopwordList : List String :=
  ["the", "is", "are", "was", "were", "a", "an", "and", "or", "but",
   "in", "on", "at", "to", "for", "of", "with", "by",
   "이", "가", "을", "를", "에", "의", "와", "과", "도", "로", "으로"]

/-- Model of `RetrieverAgent._extract_keywords`: words of the lower-cased query of
length at least 2 that are not stop words, first 10 of them. -/
def extract_keywords (text : String) : List String :=
  ((findWords (lowerString text)).filter
    (fun w => 2 ≤ w.length && !(stopwordList.contains w))).take 10

/-- Model of `scores[idx] += 1` on a `collections.Counter`, an insertion-ordered
association list: increment in place if the key exists, else append with
count 1. -/
def counterAdd : List (Nat × Nat) → Nat → List (Nat × Nat)
  | [], k => [(k, 1)]
  | p :: ps, k =>
    if p.1 == k then (p.1, p.2 + 1) :: ps else p :: counterAdd ps k

/-- Model of `scores[idx]` (0 when absent, as for a `Counter`): the count stored
with the first — and, keys being unique, only — entry for the key. -/
def lookupCount : List (Nat × Nat) → Nat → Nat
  | [], _ => 0
  | p :: ps, k => if p.1 == k then p.2 else lookupCount ps k

/-- The score `Counter` of `search_by_keywords`: for each (lower-cased)
keyword in order, add 1 to every document index on its posting list. -/
def keywordScores (corpus : List Doc) (keywords : List String) :
    List (Nat × Nat) :=
  keywords.foldl (fun c kw => (postingList corpus kw).foldl counterAdd c) []

/-- The preorder used by `Counter.most_common`: larger count first. -/
def cntGe (a b : Nat × Nat) : Prop := b.2 ≤ a.2

instance : DecidableRel cntGe := fun a b => Nat.decLe b.2 a.2

instance : IsTotal (Nat × Nat) cntGe := ⟨fun a b => le_total b.2 a.2⟩

instance : IsTrans (Nat × Nat) cntGe :=
  ⟨fun _ _ _ h1 h2 => le_trans h2 h1⟩

/-- Model of `Counter.most_common(n)`: entries stably sorted by descending count
(ties keep first-insertion order, as documented for `Counter`), first `n`. -/
def mostCommon (c : List (Nat × Nat)) (n : Nat) : List (Nat × Nat) :=
  (List.insertionSort cntGe c).take n

/-- The record that `search_by_keywords` builds for one selected index
(`None` when the index is out of metadata range: the Python `continue`). -/
def mkKwRecord (corpus : List Doc) (scores : List (Nat × Nat)) (idx : Nat) :
    Option SongRec :=
  if h : idx < corpus.length then
    let score := lookupCount scores idx
    let d := corpus.get ⟨idx, h⟩
    some { index := (idx : Int),
           distance := some (1 / ((score : ℚ) + 1)),
           keyword_score := some score,
           combined_score := none,
           title := d.title,
           feature_summary := d.feature_summary,
           lyrics := d.lyrics }
  else none

/-- Model of `DongyoVectorDB.search_by_keywords`: score every document by the
keywords, take the `most_common(top_k * 2)` indices, keep the first
`top_k`, and build a record for each (with the synthetic distance
`1.0 / (score + 1)`). -/
def search_by_keywords (corpus : List Doc) (keywords : List String)
    (top_k : Nat) : List SongRec :=
  if keywords.isEmpty then []
  else
    let scores := keywordScores corpus (keywords.map lowerString)
    let top_indices := (mostCommon scores (top_k * 2)).map Prod.fst
    (top_indices.take top_k).filterMap (mkKwRecord corpus scores)

/-- Python `self.metadata[i]` for an `int` index: non-negative indices
index from the front, negative indices from the back (`metadata[-1]` is
the last document, which is what the code hits when FAISS returns the
padding label `-1`). -/
def pyGetDoc (corpus : List Doc) (i : Int) : Doc :=
  if 0 ≤ i then corpus.getD i.toNat default
  else corpus.getD (corpus.length - (-i).toNat) default

/-- The record `search_similar` builds from one `(label, distance)` pair
of the FAISS response; `none` models the `continue` on `idx_int` not less
than the metadata length (the only bound the code checks). -/
def mkVecRecord (corpus : List Doc) (p : Int × ℚ) : Option SongRec :=
  if p.1 < (corpus.length : Int) then
    let d := pyGetDoc corpus p.1
    some { index := p.1,
           distance := some p.2,
           keyword_score := none,
           combined_score := none,
           title := d.title,
           feature_summary := d.feature_summary,
           lyrics := d.lyrics }
  else none

/-- Model of `DongyoVectorDB.search_similar`, given the FAISS response `raw` for
the query embedding (pairs of label and distance, in FAISS rank order). -/
def search_similar (corpus : List Doc) (raw : List (Int × ℚ)) :
    List SongRec :=
  raw.filterMap (mkVecRecord corpus)

/-- Model of `x.get('combined_score', 0.0)`. -/
def scoreOf (r : SongRec) : ℚ := r.combined_score.getD 0

/-- Overwrite the `combined_score` entry of a record. -/
def setScore (r : SongRec) (q : ℚ) : SongRec :=
  { r with combined_score := some q }

/-- The vector-side fusion contribution of a record:
`1.0 / (result.get('distance', inf) + 1) * 0.7` (a missing distance gives
`1/inf = 0`). -/
def vecContribution (r : SongRec) : ℚ :=
  match r.distance with
  | some d => 1 / (d + 1) * (7 / 10)
  | none => 0

/-- The keyword-side fusion contribution of a record:
`score / (score + 1) * 0.3` with `score = result.get('keyword_score', 0)`. -/
def kwContribution (r : SongRec) : ℚ :=
  ((r.keyword_score.getD 0 : ℚ) / ((r.keyword_score.getD 0 : ℚ) + 1)) * (3 / 10)

/-- Model of `if idx not in combined: combined[idx] = result.copy();
combined[idx]['combined_score'] = 0.0`. -/
def insertIfAbsent (m : List (Int × SongRec)) (r : SongRec) :
    List (Int × SongRec) :=
  if m.any (fun p => p.1 == r.index) then m
  else m ++ [(r.index, setScore r 0)]

/-- Model of `combined[idx][s] = combined[idx].get(s, 0.0) + v` for the score key:
update the entry stored under `idx` in place, leaving the rest alone. -/
def addScore : List (Int × SongRec) → Int → ℚ → List (Int × SongRec)
  | [], _, _ => []
  | p :: ps, idx, s =>
    (if p.1 == idx then (p.1, setScore p.2 (scoreOf p.2 + s)) else p) ::
      addScore ps idx s

/-- One iteration of a `_combine_results` loop: make sure the index has an
entry, then add this record's contribution. -/
def combineStep (contrib : SongRec → ℚ) (m : List (Int × SongRec))
    (r : SongRec) : List (Int × SongRec) :=
  addScore (insertIfAbsent m r) r.index (contrib r)

/-- The `combined` dict after both loops of `_combine_results`: the vector
results (weight 0.7) then the keyword results (weight 0.3). -/
def combineMap (vec kw : List SongRec) : List (Int × SongRec) :=
  kw.foldl (combineStep kwContribution)
    (vec.foldl (combineStep vecContribution) [])

/-- The preorder of `sorted(..., key=combined_score, reverse=True)`. -/
def combGe (a b : SongRec) : Prop := scoreOf b ≤ scoreOf a

instance : DecidableRel combGe :=
  fun a b => inferInstanceAs (Decidable (scoreOf b ≤ scoreOf a))

instance : IsTotal SongRec combGe := ⟨fun a b => le_total (scoreOf b) (scoreOf a)⟩

instance : IsTrans SongRec combGe :=
  ⟨fun _ _ _ h1 h2 => le_trans h2 h1⟩

/-- Model of `RetrieverAgent._combine_results`: fuse the two candidate lists,
stably sort the dict values by descending `combined_score`, truncate. -/
def combine_results (vec kw : List SongRec) (top_k : Nat) : List SongRec :=
  (List.insertionSort combGe ((combineMap vec kw).map Prod.snd)).take top_k

/-- Python `a in b` on strings: `pat` occurs contiguously in `s`. -/
def startsWithChars : List Char → List Char → Bool
  | [], _ => true
  | _ :: _, [] => false
  | a :: as, b :: bs => a == b && startsWithChars as bs

/-- Substring occurrence on character lists (Python `pat in s`). -/
def hasSubChars (pat : List Char) : List Char → Bool
  | [] => startsWithChars pat []
  | c :: cs => startsWithChars pat (c :: cs) || hasSubChars pat cs

/-- From `filter_by_categories`: the searchable text of one candidate,
`f"{title} {feature_summary} {lyrics}".lower()`. -/
def searchableText (r : SongRec) : String :=
  lowerString (r.title ++ " " ++ r.feature_summary ++ " " ++ r.lyrics)

/-- The lower-cased non-empty category values (`if cat_value and
cat_value.strip()`). -/
def catKeywords (categories : List (String × String)) : List String :=
  (categories.filter
    (fun p => !(p.2 == "") && !(trimString p.2 == ""))).map
    (fun p => lowerString p.2)

/-- A candidate matches when any category keyword occurs in its
searchable text. -/
def recMatches (kws : List String) (r : SongRec) : Bool :=
  kws.any (fun kw => hasSubChars kw.data (searchableText r).data)

/-- Model of `DongyoVectorDB.filter_by_categories`: identity when there is no
filter condition (`not categories or not any(categories.values())`, or no
keyword survives extraction); otherwise keep the matching candidates,
falling back to the whole input when nothing matched. -/
def filter_by_categories (results : List SongRec)
    (categories : List (String × String)) : List SongRec :=
  if categories.isEmpty || categories.all (fun p => p.2 == "") then results
  else if (catKeywords categories).isEmpty then results
  else if 1 ≤ (results.filter (recMatches (catKeywords categories))).length
    then results.filter (recMatches (catKeywords categories))
  else results

/-- The key of the final sort of `retrieve`:
`x.get('distance', float('inf'))`, with `inf` as `⊤`. -/
def distKey (r : SongRec) : WithTop ℚ :=
  match r.distance with
  | some d => (d : WithTop ℚ)
  | none => ⊤

/-- The preorder of `sorted(..., key=distance)`. -/
def distLe (a b : SongRec) : Prop := distKey a ≤ distKey b

instance : DecidableRel distLe :=
  fun a b => inferInstanceAs (Decidable (distKey a ≤ distKey b))

instance : IsTotal SongRec distLe := ⟨fun a b => le_total (distKey a) (distKey b)⟩

instance : IsTrans SongRec distLe :=
  ⟨fun _ _ _ h1 h2 => le_trans h1 h2⟩

/-- Model of `RetrieverAgent.retrieve`.  Here `raw` is the FAISS response for the query
embedding (the code requests `top_k * 3` neighbors when `use_hybrid` else
`top_k`; FAISS may answer with fewer valid labels, padding with `-1`).
The remaining arguments and the control flow follow the Python exactly:
keyword search and fusion only when `use_hybrid` and keyword extraction
found something, category filtering only when `categories` is non-empty,
then the final sort by the `distance` key and truncation to `top_k`. -/
def retrieve (corpus : List Doc) (raw : List (Int × ℚ))
    (search_query : String) (top_k : Nat)
    (categories : List (String × String)) (use_hybrid : Bool) :
    List SongRec :=
  let vector_results := search_similar corpus raw
  let combined_results :=
    if use_hybrid then
      let keywords := extract_keywords search_query
      if keywords.isEmpty then vector_results
      else
        combine_results vector_results
          (search_by_keywords corpus keywords (top_k * 2)) (top_k * 2)
    else vector_results
  let filtered_results :=
    if categories.isEmpty then combined_results
    else filter_by_categories combined_results categories
  (List.insertionSort distLe filtered_results).take top_k

/-- The fusion score stored for key `i` in the `combined` dict of
`_combine_results` (0 when the key is absent). -/
def mapScore : List (Int × SongRec) → Int → ℚ
  | [], _ => 0
  | p :: ps, i => if p.1 == i then scoreOf p.2 else mapScore ps i

/-- A record with its `combined_score` entry removed: the part of a
`result.copy()` that fusion never touches. -/
def base (r : SongRec) : SongRec :=
  { r with combined_score := none }

/-- Total contribution under `f` of the records of `l` whose index is `i`. -/
def sumC (l : List SongRec) (f : SongRec → ℚ) (i : Int) : ℚ :=
  ((l.filter (fun r => r.index == i)).map f).sum

/-- The ordering the spec claims for keyword-search output: strictly
descending `keyword_score`, ties broken by ascending document index. -/
def kwClaimOrder (a b : SongRec) : Prop :=
  b.keyword_score.getD 0 < a.keyword_score.getD 0 ∨
    (a.keyword_score.getD 0 = b.keyword_score.getD 0 ∧ a.index < b.index)

instance : DecidableRel kwClaimOrder := fun _ _ => instDecidableOr

/- ### Concrete inputs used by witnesses and counterexamples -/

/-- A record with no search metadata, as used to exercise the category
filter. -/
def plainRec (i : Int) (t : String) : SongRec :=
  ⟨i, none, none, none, t, "", ""⟩

def c4Results : List SongRec := [plainRec 0 "sunny morning song"]

def c4Cats : List (String × String) := [("mood", "zq")]

def c5Results : List SongRec := [plainRec 0 "rainy song"]

def c5Cats : List (String × String) := [("season", "")]

/-- Two documents, the first matching only "bb", the second only "aa". -/
def c6Corpus : List Doc := [⟨"bb", "", ""⟩, ⟨"aa", "", ""⟩]

/-- A single document matching the keyword "dog". -/
def c7Corpus : List Doc := [⟨"dog", "", ""⟩]

/-- The record `search_by_keywords c7Corpus ["dog"] 5` returns. -/
def c7R : SongRec :=
  ⟨0, some (1 / (((1 : Nat) : ℚ) + 1)), some 1, none, "dog", "", ""⟩

/-- A vector-search record (corpus index 0, distance 2). -/
def c38V : SongRec := ⟨0, some 2, none, none, "alpha", "", ""⟩

/-- A keyword-search record for the same document. -/
def c38K : SongRec := ⟨0, none, some 1, none, "alpha", "", ""⟩

/-- The fused record `_combine_results [c38V] [c38K]` produces. -/
def c38R : SongRec :=
  setScore c38V (0 + vecContribution c38V + kwContribution c38K)

/-- A single document matching the keyword "cat". -/
def c10Corpus : List Doc := [⟨"cat", "", ""⟩]

/-- The record `search_by_keywords c10Corpus ["cat"] 3` returns. -/
def c10R : SongRec :=
  ⟨0, some (1 / (((1 : Nat) : ℚ) + 1)), some 1, none, "cat", "", ""⟩

/-- A keyword-search record fused without any vector candidate. -/
def c10K : SongRec := ⟨0, none, some 2, none, "kitten", "", ""⟩

/-- The fused record `_combine_results [] [c10K]` produces. -/
def c10S : SongRec := setScore c10K (0 + kwContribution c10K)

/-- Two documents; the query "banana" matches only the second. -/
def c1Corpus : List Doc := [⟨"apple", "", ""⟩, ⟨"banana", "", ""⟩]

/-- A FAISS response for width `top_k * 3 = 6` over a 2-document corpus:
two real neighbors (distances 1 and 2) and four `-1` padding entries. -/
def c1Raw : List (Int × ℚ) :=
  [(0, 1), (1, 2), (-1, 100), (-1, 100), (-1, 100), (-1, 100)]

/-- Fused record of document 0 (vector contribution only). -/
def c1E0 : SongRec :=
  ⟨0, some 1, none, some (0 + 1 / ((1 : ℚ) + 1) * (7 / 10)),
    "apple", "", ""⟩

/-- Fused record of document 1 (vector and keyword contributions). -/
def c1E1 : SongRec :=
  ⟨1, some 2, none,
    some (0 + 1 / ((2 : ℚ) + 1) * (7 / 10) +
      ((1 : Nat) : ℚ) / (((1 : Nat) : ℚ) + 1) * (3 / 10)),
    "banana", "", ""⟩

/-- Fused record of the `-1` padding label (four vector contributions,
metadata of the last document via Python negative indexing). -/
def c1EN : SongRec :=
  ⟨-1, some 100, none,
    some (0 + 1 / ((100 : ℚ) + 1) * (7 / 10) + 1 / ((100 : ℚ) + 1) * (7 / 10)
      + 1 / ((100 : ℚ) + 1) * (7 / 10) + 1 / ((100 : ℚ) + 1) * (7 / 10)),
    "banana", "", ""⟩

/-- A one-document corpus, for the FAISS `-1` padding scenario. -/
def c2Corpus : List Doc := [⟨"song", "", ""⟩]

/- ### Lemmas about the keyword `Counter` -/

lemma lookupCount_counterAdd (c : List (Nat × Nat)) (k j : Nat) :
    lookupCount (counterAdd c k) j =
      lookupCount c j + (if j = k then 1 else 0) := by
  induction c with
  | nil =>
    by_cases h : j = k
    · subst h; simp [counterAdd, lookupCount]
    · simp [counterAdd, lookupCount, h, Ne.symm h]
  | cons q qs ih =>
    by_cases h1 : q.1 = k
    · subst h1
      by_cases h2 : j = q.1
      · subst h2; simp [counterAdd, lookupCount]
      · simp [counterAdd, lookupCount, h2, Ne.symm h2]
    · by_cases h2 : q.1 = j
      · subst h2
        have hk : ¬ (q.1 = k) := h1
        simp [counterAdd, lookupCount, h1, hk]
      · simp [counterAdd, lookupCount, h1, h2, ih]

lemma count_pos_counterAdd (c : List (Nat × Nat)) (k : Nat)
    (h : ∀ p ∈ c, 1 ≤ p.2) : ∀ p ∈ counterAdd c k, 1 ≤ p.2 := by
  induction c with
  | nil => simp [counterAdd]
  | cons q qs ih =>
    intro p hp
    by_cases h1 : q.1 = k
    · simp only [counterAdd, h1, beq_self_eq_true, if_true] at hp
      rcases List.mem_cons.1 hp with rfl | hp2
      · have := h q (List.mem_cons_self _ _); omega
      · exact h p (List.mem_cons_of_mem _ hp2)
    · simp only [counterAdd, beq_iff_eq, h1, if_false] at hp
      rcases List.mem_cons.1 hp with rfl | hp2
      · exact h p (List.mem_cons_self _ _)
      · exact ih (fun q hq => h q (List.mem_cons_of_mem _ hq)) p hp2

lemma mem_keys_counterAdd (c : List (Nat × Nat)) (k j : Nat) :
    j ∈ (counterAdd c k).map Prod.fst ↔ j ∈ c.map Prod.fst ∨ j = k := by
  induction c with
  | nil => simp [counterAdd]
  | cons q qs ih =>
    by_cases h1 : q.1 = k <;> (simp [counterAdd, h1, ih]; tauto)

lemma keys_nodup_counterAdd (c : List (Nat × Nat)) (k : Nat)
    (h : (c.map Prod.fst).Nodup) :
    ((counterAdd c k).map Prod.fst).Nodup := by
  induction c with
  | nil => simp [counterAdd]
  | cons q qs ih =>
    simp only [List.map_cons, List.nodup_cons] at h
    by_cases h1 : q.1 = k
    · simp only [counterAdd, h1, beq_self_eq_true, if_true, List.map_cons,
        List.nodup_cons]
      exact ⟨h1 ▸ h.1, h.2⟩
    · simp only [counterAdd, beq_iff_eq, h1, if_false, List.map_cons,
        List.nodup_cons]
      refine ⟨?_, ih h.2⟩
      intro hc
      rcases (mem_keys_counterAdd qs k q.1).1 hc with hm | hm
      · exact h.1 hm
      · exact h1 hm

lemma lookupCount_of_mem (c : List (Nat × Nat)) (p : Nat × Nat)
    (hnd : (c.map Prod.fst).Nodup) (hp : p ∈ c) :
    lookupCount c p.1 = p.2 := by
  induction c with
  | nil => simp at hp
  | cons q qs ih =>
    simp only [List.map_cons, List.nodup_cons] at hnd
    rcases List.mem_cons.1 hp with rfl | hp2
    · simp [lookupCount]
    · have hq : ¬ (q.1 = p.1) := by
        intro he
        exact hnd.1 (he ▸ List.mem_map_of_mem Prod.fst hp2)
      simp only [lookupCount, beq_iff_eq, hq, if_false]
      exact ih hnd.2 hp2

lemma postingList_nodup (corpus : List Doc) (w : String) :
    (postingList corpus w).Nodup :=
  (List.nodup_range _).filter _

lemma lookupCount_foldl_counterAdd (l : List Nat) (hnd : l.Nodup) :
    ∀ (c : List (Nat × Nat)) (j : Nat),
      lookupCount (l.foldl counterAdd c) j =
        lookupCount c j + (if j ∈ l then 1 else 0) := by
  induction l with
  | nil => intro c j; simp
  | cons a as ih =>
    intro c j
    rw [List.foldl_cons, ih (List.Nodup.of_cons hnd), lookupCount_counterAdd]
    rcases List.nodup_cons.1 hnd with ⟨ha, _⟩
    by_cases h : j = a
    · subst h; simp [ha]
    · simp [h]

lemma lookupCount_kwFold (corpus : List Doc) (kws : List String) :
    ∀ (c : List (Nat × Nat)) (j : Nat),
      lookupCount
          (kws.foldl (fun c kw => (postingList corpus kw).foldl counterAdd c) c) j =
        lookupCount c j +
          (kws.filter (fun kw => decide (j ∈ postingList corpus kw))).length := by
  induction kws with
  | nil => intro c j; simp
  | cons kw kws ih =>
    intro c j
    rw [List.foldl_cons, ih,
      lookupCount_foldl_counterAdd _ (postingList_nodup corpus kw)]
    by_cases h : j ∈ postingList corpus kw <;> simp [h] <;> omega

lemma lookupCount_keywordScores (corpus : List Doc) (kws : List String)
    (j : Nat) :
    lookupCount (keywordScores corpus kws) j =
      (kws.filter (fun kw => decide (j ∈ postingList corpus kw))).length := by
  have h := lookupCount_kwFold corpus kws [] j
  simpa [keywordScores, lookupCount] using h

lemma keys_nodup_foldl_counterAdd (l : List Nat) :
    ∀ c, (c.map Prod.fst).Nodup →
      ((l.foldl counterAdd c).map Prod.fst).Nodup := by
  induction l with
  | nil => intro c h; simpa using h
  | cons a as ih => intro c h; exact ih _ (keys_nodup_counterAdd c a h)

lemma keys_nodup_keywordScores (corpus : List Doc) (kws : List String) :
    ((keywordScores corpus kws).map Prod.fst).Nodup := by
  unfold keywordScores
  generalize hc : ([] : List (Nat × Nat)) = c
  have hnd : (c.map Prod.fst).Nodup := by simp [← hc]
  clear hc
  induction kws generalizing c with
  | nil => simpa using hnd
  | cons kw kws ih =>
    rw [List.foldl_cons]
    exact ih _ (keys_nodup_foldl_counterAdd _ _ hnd)

lemma count_pos_foldl_counterAdd (l : List Nat) :
    ∀ c, (∀ p ∈ c, 1 ≤ p.2) → ∀ p ∈ l.foldl counterAdd c, 1 ≤ p.2 := by
  induction l with
  | nil => intro c h; simpa using h
  | cons a as ih => intro c h; exact ih _ (count_pos_counterAdd c a h)

lemma count_pos_keywordScores (corpus : List Doc) (kws : List String) :
    ∀ p ∈ keywordScores corpus kws, 1 ≤ p.2 := by
  unfold keywordScores
  generalize hc : ([] : List (Nat × Nat)) = c
  have hpos : ∀ p ∈ c, 1 ≤ p.2 := by simp [← hc]
  clear hc
  induction kws generalizing c with
  | nil => simpa using hpos
  | cons kw kws ih =>
    rw [List.foldl_cons]
    exact ih _ (count_pos_foldl_counterAdd _ _ hpos)

/- ### Lemmas about `search_by_keywords` -/

lemma mem_of_mem_mostCommon (c : List (Nat × Nat)) (n : Nat)
    (p : Nat × Nat) (hp : p ∈ mostCommon c n) : p ∈ c :=
  (List.perm_insertionSort cntGe c).mem_iff.1 (List.mem_of_mem_take hp)

lemma mkKwRecord_eq_some (corpus : List Doc) (scores : List (Nat × Nat))
    (idx : Nat) (r : SongRec) (h : mkKwRecord corpus scores idx = some r) :
    idx < corpus.length ∧
      r.index = (idx : Int) ∧
      r.keyword_score = some (lookupCount scores idx) ∧
      r.distance = some (1 / ((lookupCount scores idx : ℚ) + 1)) := by
  unfold mkKwRecord at h
  split at h
  · rename_i hlt
    obtain rfl := Option.some.inj h
    exact ⟨hlt, rfl, rfl, rfl⟩
  · exact absurd h (by simp)

lemma search_by_keywords_spec (corpus : List Doc) (keywords : List String)
    (top_k : Nat) (r : SongRec)
    (hr : r ∈ search_by_keywords corpus keywords top_k) :
    ∃ idx : Nat,
      idx < corpus.length ∧
      r.index = (idx : Int) ∧
      idx ∈ (keywordScores corpus (keywords.map lowerString)).map Prod.fst ∧
      r.keyword_score =
        some (lookupCount (keywordScores corpus (keywords.map lowerString)) idx) ∧
      r.distance =
        some (1 / ((lookupCount (keywordScores corpus (keywords.map lowerString))
          idx : ℚ) + 1)) := by
  unfold search_by_keywords at hr
  split at hr
  · simp at hr
  · obtain ⟨idx, hidx, hmk⟩ := List.mem_filterMap.1 hr
    obtain ⟨hlt, hi, hks, hd⟩ := mkKwRecord_eq_some _ _ _ _ hmk
    refine ⟨idx, hlt, hi, ?_, hks, hd⟩
    have h1 : idx ∈ (mostCommon
        (keywordScores corpus (keywords.map lowerString)) (top_k * 2)).map
        Prod.fst := List.mem_of_mem_take hidx
    obtain ⟨p, hp, hpe⟩ := List.mem_map.1 h1
    exact hpe ▸ List.mem_map_of_mem Prod.fst (mem_of_mem_mostCommon _ _ _ hp)

/- ### Lemmas about the `combined` dict of `_combine_results` -/

lemma scoreOf_setScore (r : SongRec) (q : ℚ) : scoreOf (setScore r q) = q := rfl

lemma base_setScore (r : SongRec) (q : ℚ) : base (setScore r q) = base r := rfl

lemma mapScore_addScore_ne (m : List (Int × SongRec)) (j i : Int) (s : ℚ)
    (h : i ≠ j) : mapScore (addScore m j s) i = mapScore m i := by
  induction m with
  | nil => rfl
  | cons p ps ih =>
    simp only [addScore]
    by_cases h1 : p.1 = j
    · have h2 : ¬ (p.1 = i) := fun he => h (he ▸ h1)
      simp [mapScore, h1, h2, ih, Ne.symm h]
    · by_cases h2 : p.1 = i <;> simp [mapScore, h1, h2, ih, h]

lemma mapScore_addScore_eq (m : List (Int × SongRec)) (j : Int) (s : ℚ)
    (h : m.any (fun p => p.1 == j) = true) :
    mapScore (addScore m j s) j = mapScore m j + s := by
  induction m with
  | nil => simp at h
  | cons p ps ih =>
    simp only [addScore]
    by_cases h1 : p.1 = j
    · simp [mapScore, h1, scoreOf_setScore]
    · simp only [List.any_cons, Bool.or_eq_true, beq_iff_eq, h1, false_or]
        at h
      simp [mapScore, h1, ih h]

lemma mapScore_insertIfAbsent (m : List (Int × SongRec)) (r : SongRec)
    (i : Int) : mapScore (insertIfAbsent m r) i = mapScore m i := by
  unfold insertIfAbsent
  split
  · rfl
  · rename_i hany
    induction m with
    | nil =>
      by_cases h : r.index = i <;>
        simp [mapScore, h, scoreOf_setScore]
    | cons p ps ih =>
      simp only [List.any_cons, Bool.or_eq_true, not_or] at hany
      by_cases h : p.1 = i
      · simp [mapScore, h]
      · simp only [List.cons_append, mapScore, beq_iff_eq, h, if_false]
        exact ih hany.2

lemma any_insertIfAbsent_self (m : List (Int × SongRec)) (r : SongRec) :
    (insertIfAbsent m r).any (fun p => p.1 == r.index) = true := by
  unfold insertIfAbsent
  split
  · assumption
  · simp

lemma mapScore_combineStep (f : SongRec → ℚ) (m : List (Int × SongRec))
    (r : SongRec) (i : Int) :
    mapScore (combineStep f m r) i =
      mapScore m i + (if i = r.index then f r else 0) := by
  unfold combineStep
  by_cases h : i = r.index
  · subst h
    rw [mapScore_addScore_eq _ _ _ (any_insertIfAbsent_self m r),
      mapScore_insertIfAbsent]
    simp
  · rw [mapScore_addScore_ne _ _ _ _ h, mapScore_insertIfAbsent]
    simp [h]

lemma mapScore_foldl_combineStep (f : SongRec → ℚ) (rs : List SongRec) :
    ∀ (m : List (Int × SongRec)) (i : Int),
      mapScore (rs.foldl (combineStep f) m) i = mapScore m i + sumC rs f i := by
  induction rs with
  | nil => intro m i; simp [sumC]
  | cons r rs ih =>
    intro m i
    rw [List.foldl_cons, ih, mapScore_combineStep]
    by_cases h : r.index = i
    · simp [sumC, h, add_assoc, eq_comm]
    · have h2 : ¬ (i = r.index) := fun he => h he.symm
      simp [sumC, h, h2]

lemma mapScore_combineMap (vec kw : List SongRec) (i : Int) :
    mapScore (combineMap vec kw) i =
      sumC vec vecContribution i + sumC kw kwContribution i := by
  unfold combineMap
  rw [mapScore_foldl_combineStep, mapScore_foldl_combineStep]
  simp [mapScore, add_comm]

lemma mem_addScore (m : List (Int × SongRec)) (j : Int) (s : ℚ)
    (p : Int × SongRec) (hp : p ∈ addScore m j s) :
    ∃ q ∈ m, p.1 = q.1 ∧ base p.2 = base q.2 ∧
      (q.2.combined_score.isSome = true → p.2.combined_score.isSome = true) := by
  induction m with
  | nil => simp [addScore] at hp
  | cons q qs ih =>
    simp only [addScore] at hp
    rcases List.mem_cons.1 hp with rfl | hp2
    · by_cases h1 : q.1 = j
      · exact ⟨q, List.mem_cons_self _ _, by simp [h1], by
          simp [h1, base_setScore], by simp [h1, setScore]⟩
      · exact ⟨q, List.mem_cons_self _ _, by simp [h1], by simp [h1],
          by simp [h1]⟩
    · obtain ⟨q2, hq2, he⟩ := ih hp2
      exact ⟨q2, List.mem_cons_of_mem _ hq2, he⟩

lemma mem_insertIfAbsent (m : List (Int × SongRec)) (r : SongRec)
    (p : Int × SongRec) (hp : p ∈ insertIfAbsent m r) :
    p ∈ m ∨ (p.1 = r.index ∧ base p.2 = base r ∧
      p.2.combined_score.isSome = true) := by
  unfold insertIfAbsent at hp
  split at hp
  · exact Or.inl hp
  · rcases List.mem_append.1 hp with hp2 | hp2
    · exact Or.inl hp2
    · rcases List.mem_singleton.1 hp2 with rfl
      exact Or.inr ⟨rfl, base_setScore r 0, rfl⟩

lemma mem_combineStep (f : SongRec → ℚ) (m : List (Int × SongRec))
    (r : SongRec) (p : Int × SongRec) (hp : p ∈ combineStep f m r) :
    (∃ q ∈ m, p.1 = q.1 ∧ base p.2 = base q.2 ∧
        (q.2.combined_score.isSome = true → p.2.combined_score.isSome = true)) ∨
      (p.1 = r.index ∧ base p.2 = base r ∧
        p.2.combined_score.isSome = true) := by
  obtain ⟨q, hq, hkey, hbase, hsome⟩ := mem_addScore _ _ _ _ hp
  rcases mem_insertIfAbsent _ _ _ hq with hq2 | ⟨hk2, hb2, hs2⟩
  · exact Or.inl ⟨q, hq2, hkey, hbase, hsome⟩
  · exact Or.inr ⟨hkey.trans hk2, hbase.trans hb2, hsome hs2⟩

lemma mem_foldl_combineStep (f : SongRec → ℚ) (rs : List SongRec) :
    ∀ (m : List (Int × SongRec)) (p : Int × SongRec),
      p ∈ rs.foldl (combineStep f) m →
      (∃ q ∈ m, p.1 = q.1 ∧ base p.2 = base q.2 ∧
          (q.2.combined_score.isSome = true → p.2.combined_score.isSome = true)) ∨
        (∃ r0 ∈ rs, p.1 = r0.index ∧ base p.2 = base r0 ∧
          p.2.combined_score.isSome = true) := by
  induction rs with
  | nil => intro m p hp; exact Or.inl ⟨p, hp, rfl, rfl, id⟩
  | cons r rs ih =>
    intro m p hp
    rw [List.foldl_cons] at hp
    rcases ih _ _ hp with ⟨q, hq, hkey, hbase, hsome⟩ | ⟨r0, hr0, he⟩
    · rcases mem_combineStep f m r q hq with ⟨q2, hq2, hk2, hb2, hs2⟩ |
        ⟨hk2, hb2, hs2⟩
      · exact Or.inl ⟨q2, hq2, hkey.trans hk2, hbase.trans hb2,
          fun h => hsome (hs2 h)⟩
      · exact Or.inr ⟨r, List.mem_cons_self _ _, hkey.trans hk2,
          hbase.trans hb2, hsome hs2⟩
    · exact Or.inr ⟨r0, List.mem_cons_of_mem _ hr0, he⟩

/-- Every entry of the `combined` dict stems from a vector or keyword
record: same key, same record apart from `combined_score`, and a
`combined_score` entry is always present. -/
lemma mem_combineMap (vec kw : List SongRec) (p : Int × SongRec)
    (hp : p ∈ combineMap vec kw) :
    (∃ r0 ∈ vec, p.1 = r0.index ∧ base p.2 = base r0 ∧
        p.2.combined_score.isSome = true) ∨
      (∃ r0 ∈ kw, p.1 = r0.index ∧ base p.2 = base r0 ∧
        p.2.combined_score.isSome = true) := by
  unfold combineMap at hp
  rcases mem_foldl_combineStep _ _ _ _ hp with ⟨q, hq, hkey, hbase, hsome⟩ |
    ⟨r0, hr0, he⟩
  · rcases mem_foldl_combineStep _ _ _ _ hq with ⟨q2, hq2, _⟩ |
      ⟨r0, hr0, hk2, hb2, hs2⟩
    · simp at hq2
    · exact Or.inl ⟨r0, hr0, hkey.trans hk2, hbase.trans hb2, hsome hs2⟩
  · exact Or.inr ⟨r0, hr0, he⟩

lemma base_index (r0 r1 : SongRec) (h : base r0 = base r1) :
    r0.index = r1.index := by
  simpa [base] using congrArg SongRec.index h

lemma base_distance (r0 r1 : SongRec) (h : base r0 = base r1) :
    r0.distance = r1.distance := by
  simpa [base] using congrArg SongRec.distance h

lemma base_keyword_score (r0 r1 : SongRec) (h : base r0 = base r1) :
    r0.keyword_score = r1.keyword_score := by
  simpa [base] using congrArg SongRec.keyword_score h

lemma keys_addScore (m : List (Int × SongRec)) (j : Int) (s : ℚ) :
    (addScore m j s).map Prod.fst = m.map Prod.fst := by
  induction m with
  | nil => rfl
  | cons p ps ih =>
    simp only [addScore, List.map_cons]
    by_cases h1 : p.1 = j <;> simp [h1, ih]

lemma keys_nodup_insertIfAbsent (m : List (Int × SongRec)) (r : SongRec)
    (h : (m.map Prod.fst).Nodup) :
    ((insertIfAbsent m r).map Prod.fst).Nodup := by
  unfold insertIfAbsent
  split
  · exact h
  · rename_i hany
    rw [List.map_append]
    refine List.Nodup.append h (by simp) ?_
    intro a ha hb
    simp only [List.map_cons, List.map_nil, List.mem_singleton] at hb
    subst hb
    obtain ⟨p, hp, hpe⟩ := List.mem_map.1 ha
    exact hany (List.any_eq_true.2 ⟨p, hp, by simp [hpe]⟩)

lemma keys_nodup_combineStep (f : SongRec → ℚ) (m : List (Int × SongRec))
    (r : SongRec) (h : (m.map Prod.fst).Nodup) :
    ((combineStep f m r).map Prod.fst).Nodup := by
  unfold combineStep
  rw [keys_addScore]
  exact keys_nodup_insertIfAbsent m r h

lemma keys_nodup_foldl_combineStep (f : SongRec → ℚ) (rs : List SongRec) :
    ∀ m, (m.map Prod.fst).Nodup →
      ((rs.foldl (combineStep f) m).map Prod.fst).Nodup := by
  induction rs with
  | nil => intro m h; exact h
  | cons r rs ih =>
    intro m h
    exact ih _ (keys_nodup_combineStep f m r h)

lemma keys_nodup_combineMap (vec kw : List SongRec) :
    ((combineMap vec kw).map Prod.fst).Nodup := by
  unfold combineMap
  exact keys_nodup_foldl_combineStep _ _ _
    (keys_nodup_foldl_combineStep _ _ _ (by simp))

lemma mapScore_of_mem (m : List (Int × SongRec)) (p : Int × SongRec)
    (hnd : (m.map Prod.fst).Nodup) (hp : p ∈ m) :
    mapScore m p.1 = scoreOf p.2 := by
  induction m with
  | nil => simp at hp
  | cons q qs ih =>
    simp only [List.map_cons, List.nodup_cons] at hnd
    rcases List.mem_cons.1 hp with rfl | hp2
    · simp [mapScore]
    · have hq : ¬ (q.1 = p.1) := by
        intro he
        exact hnd.1 (he ▸ List.mem_map_of_mem Prod.fst hp2)
      simp only [mapScore, beq_iff_eq, hq, if_false]
      exact ih hnd.2 hp2

/-- Characterization of the fusion score of every record
`_combine_results` returns: the sum of the vector-side and keyword-side
contributions of the records that share its index. -/
lemma combine_score_char (vec kw : List SongRec) (top_k : Nat) (r : SongRec)
    (hr : r ∈ combine_results vec kw top_k) :
    r.combined_score =
      some (sumC vec vecContribution r.index + sumC kw kwContribution r.index) := by
  unfold combine_results at hr
  have hr2 : r ∈ (combineMap vec kw).map Prod.snd :=
    (List.perm_insertionSort combGe _).mem_iff.1 (List.mem_of_mem_take hr)
  obtain ⟨p, hp, hpe⟩ := List.mem_map.1 hr2
  have hidx : p.2.index = p.1 := by
    rcases mem_combineMap _ _ _ hp with ⟨r0, _, hk, hb, _⟩ | ⟨r0, _, hk, hb, _⟩ <;>
      rw [base_index _ _ hb, hk]
  have hsome : p.2.combined_score.isSome = true := by
    rcases mem_combineMap _ _ _ hp with ⟨r0, _, _, _, hs⟩ | ⟨r0, _, _, _, hs⟩ <;>
      exact hs
  have hscore : mapScore (combineMap vec kw) p.1 = scoreOf p.2 :=
    mapScore_of_mem _ _ (keys_nodup_combineMap vec kw) hp
  rw [mapScore_combineMap] at hscore
  subst hpe
  obtain ⟨v, hv⟩ := Option.isSome_iff_exists.1 hsome
  rw [hidx, hv]
  congr 1
  rw [hscore]
  simp [scoreOf, hv]

/-- A record of the fused list whose index occurs nowhere in the vector
list stems from a keyword record, with the same fields apart from
`combined_score`. -/
lemma combine_results_kw_only (vec kw : List SongRec) (top_k : Nat)
    (r : SongRec) (hr : r ∈ combine_results vec kw top_k)
    (hnv : r.index ∉ vec.map SongRec.index) :
    ∃ rk ∈ kw, base r = base rk := by
  unfold combine_results at hr
  have hr2 : r ∈ (combineMap vec kw).map Prod.snd :=
    (List.perm_insertionSort combGe _).mem_iff.1 (List.mem_of_mem_take hr)
  obtain ⟨p, hp, hpe⟩ := List.mem_map.1 hr2
  subst hpe
  rcases mem_combineMap _ _ _ hp with ⟨r0, hr0, hk, hb, _⟩ |
    ⟨r0, hr0, hk, hb, _⟩
  · exfalso
    apply hnv
    rw [base_index _ _ hb]
    exact List.mem_map_of_mem SongRec.index hr0
  · exact ⟨r0, hr0, hb⟩

/-- With pairwise-distinct indices the contribution sum collapses to the
single contribution of the (unique) record with that index. -/
lemma sumC_eq_find (l : List SongRec) (f : SongRec → ℚ) (i : Int)
    (hnd : (l.map SongRec.index).Nodup) :
    sumC l f i =
      match l.find? (fun x => x.index == i) with
      | some r0 => f r0
      | none => 0 := by
  induction l with
  | nil => simp [sumC]
  | cons r rs ih =>
    simp only [List.map_cons, List.nodup_cons] at hnd
    by_cases h : r.index = i
    · rw [List.find?_cons_of_pos _ (by simp [h])]
      have hnone : rs.filter (fun x => x.index == i) = [] := by
        rw [List.filter_eq_nil_iff]
        intro a ha
        simp only [beq_iff_eq]
        intro he
        exact hnd.1 (h ▸ he ▸ List.mem_map_of_mem SongRec.index ha)
      simp [sumC, List.filter_cons, h, hnone]
    · rw [List.find?_cons_of_neg _ (by simp [h])]
      simpa [sumC, List.filter_cons, h] using ih hnd.2

/-- Lookup: `find?` retrieves a member record by its index when indices are
pairwise distinct. -/
lemma find?_of_index_nodup (l : List SongRec) (rv : SongRec)
    (hnd : (l.map SongRec.index).Nodup) (hrv : rv ∈ l) :
    l.find? (fun x => x.index == rv.index) = some rv := by
  induction l with
  | nil => simp at hrv
  | cons r rs ih =>
    simp only [List.map_cons, List.nodup_cons] at hnd
    rcases List.mem_cons.1 hrv with rfl | hrv2
    · exact List.find?_cons_of_pos _ (by simp)
    · have hne : ¬ (r.index = rv.index) := by
        intro he
        exact hnd.1 (he ▸ List.mem_map_of_mem SongRec.index hrv2)
      rw [List.find?_cons_of_neg _ (by simp [hne])]
      exact ih hnd.2 hrv2

/- ### Lemmas about `filter_by_categories` and the final selection -/

lemma mem_filter_by_categories (results : List SongRec)
    (categories : List (String × String)) (r : SongRec)
    (hr : r ∈ filter_by_categories results categories) : r ∈ results := by
  unfold filter_by_categories at hr
  split at hr
  · exact hr
  · split at hr
    · exact hr
    · split at hr
      · exact List.mem_of_mem_filter hr
      · exact hr

lemma kwContribution_nonneg (r : SongRec) : 0 ≤ kwContribution r := by
  unfold kwContribution
  have h1 : (0 : ℚ) ≤ (r.keyword_score.getD 0 : ℚ) := by positivity
  have h2 : (0 : ℚ) < (r.keyword_score.getD 0 : ℚ) + 1 := by positivity
  positivity

lemma vecContribution_nonneg (r : SongRec)
    (hd : 0 ≤ r.distance.getD 0) : 0 ≤ vecContribution r := by
  unfold vecContribution
  cases h : r.distance with
  | none => exact le_refl 0
  | some d =>
    rw [h] at hd
    simp only [Option.getD_some] at hd
    have h2 : (0 : ℚ) < d + 1 := by linarith
    positivity

/- ### Claim theorems -/

/-- Claim C3: in score fusion, every record returned by
`_combine_results` has `combined_score` equal to the sum of exactly the
applicable contributions — `0.7 × (1 / (distance + 1))` for the vector
record with its index if one exists, plus
`0.3 × (keyword_score / (keyword_score + 1))` for the keyword record with
its index if one exists; a document present in only one list receives
only that one term.  (Indices are assumed pairwise distinct within each
candidate list, as the searches produce them.) -/
theorem c3_fusion_score (vec kw : List SongRec) (top_k : Nat) (r : SongRec)
    (hv : (vec.map SongRec.index).Nodup) (hk : (kw.map SongRec.index).Nodup)
    (hr : r ∈ combine_results vec kw top_k) :
    r.combined_score = some (
      (match vec.find? (fun x => x.index == r.index) with
       | some rv => vecContribution rv
       | none => 0) +
      (match kw.find? (fun x => x.index == r.index) with
       | some rk => kwContribution rk
       | none => 0)) := by
  rw [combine_score_char vec kw top_k r hr, sumC_eq_find _ _ _ hv,
    sumC_eq_find _ _ _ hk]

/-- Witness for C3 at a concrete input: a document in both lists gets the
sum of both contributions. -/
theorem c3_witness :
    (([c38V].map SongRec.index).Nodup ∧ ([c38K].map SongRec.index).Nodup ∧
      c38R ∈ combine_results [c38V] [c38K] 2) ∧
    c38R.combined_score = some (
      (match [c38V].find? (fun x => x.index == c38R.index) with
       | some rv => vecContribution rv
       | none => 0) +
      (match [c38K].find? (fun x => x.index == c38R.index) with
       | some rk => kwContribution rk
       | none => 0)) := by
  have hmem : c38R ∈ combine_results [c38V] [c38K] 2 := by
    rw [show combine_results [c38V] [c38K] 2 = [c38R] from rfl]
    exact List.mem_singleton_self _
  exact ⟨⟨by decide, by decide, hmem⟩,
    c3_fusion_score [c38V] [c38K] 2 c38R (by decide) (by decide) hmem⟩

/-- Claim C8: a document appearing in both candidate lists receives a
`combined_score` at least as large as either single contribution alone
(contributions are non-negative — for the vector side because distances
are non-negative — and they add). -/
theorem c8_fusion_monotone (vec kw : List SongRec) (top_k : Nat)
    (r rv rk : SongRec)
    (hv : (vec.map SongRec.index).Nodup) (hk : (kw.map SongRec.index).Nodup)
    (hr : r ∈ combine_results vec kw top_k)
    (hrv : rv ∈ vec) (hrk : rk ∈ kw)
    (hiv : rv.index = r.index) (hik : rk.index = r.index)
    (hd : 0 ≤ rv.distance.getD 0) :
    vecContribution rv ≤ r.combined_score.getD 0 ∧
      kwContribution rk ≤ r.combined_score.getD 0 := by
  have h1 : vec.find? (fun x => x.index == r.index) = some rv := by
    rw [← hiv]
    exact find?_of_index_nodup vec rv hv hrv
  have h2 : kw.find? (fun x => x.index == r.index) = some rk := by
    rw [← hik]
    exact find?_of_index_nodup kw rk hk hrk
  have hc := combine_score_char vec kw top_k r hr
  rw [sumC_eq_find _ _ _ hv, sumC_eq_find _ _ _ hk, h1, h2] at hc
  dsimp only at hc
  rw [hc]
  simp only [Option.getD_some]
  constructor
  · linarith [kwContribution_nonneg rk]
  · linarith [vecContribution_nonneg rv hd]

/-- Witness for C8 at a concrete input. -/
theorem c8_witness :
    (0 ≤ c38V.distance.getD 0) ∧
    (vecContribution c38V ≤ c38R.combined_score.getD 0 ∧
      kwContribution c38K ≤ c38R.combined_score.getD 0) := by
  have hmem : c38R ∈ combine_results [c38V] [c38K] 2 := by
    rw [show combine_results [c38V] [c38K] 2 = [c38R] from rfl]
    exact List.mem_singleton_self _
  exact ⟨by decide,
    c8_fusion_monotone [c38V] [c38K] 2 c38R c38V c38K (by decide) (by decide)
      hmem (List.mem_singleton_self _) (List.mem_singleton_self _)
      (by decide) (by decide) (by decide)⟩

/-- Claim C4: for a non-empty candidate list, if filtering by the
category keywords leaves zero candidates the filter returns its input
unchanged; hence the filter never returns an empty list from a non-empty
input. -/
theorem c4_filter_fail_open (results : List SongRec)
    (categories : List (String × String)) (hne : results ≠ []) :
    ((results.filter (recMatches (catKeywords categories))).length = 0 →
        filter_by_categories results categories = results) ∧
      filter_by_categories results categories ≠ [] := by
  unfold filter_by_categories
  split
  · exact ⟨fun _ => rfl, hne⟩
  · split
    · exact ⟨fun _ => rfl, hne⟩
    · split
      · rename_i hlen
        refine ⟨fun h0 => absurd h0 (by omega), ?_⟩
        intro hnil
        rw [hnil] at hlen
        simp at hlen
      · exact ⟨fun _ => rfl, hne⟩

/-- Witness for C4 at a concrete input: a category value matching nothing
leaves the input unchanged and non-empty. -/
theorem c4_witness :
    (c4Results ≠ []) ∧
    (((c4Results.filter (recMatches (catKeywords c4Cats))).length = 0 →
        filter_by_categories c4Results c4Cats = c4Results) ∧
      filter_by_categories c4Results c4Cats ≠ []) :=
  ⟨by decide, c4_filter_fail_open c4Results c4Cats (by decide)⟩

/-- Claim C5: the category filter is the identity when the mapping is
empty or every category value is the empty string. -/
theorem c5_filter_identity (results : List SongRec)
    (categories : List (String × String))
    (h : categories = [] ∨ ∀ p ∈ categories, p.2 = "") :
    filter_by_categories results categories = results := by
  unfold filter_by_categories
  have hcond :
      (categories.isEmpty || categories.all (fun p => p.2 == "")) = true := by
    rcases h with rfl | hall
    · simp
    · simp only [Bool.or_eq_true, List.all_eq_true, beq_iff_eq]
      exact Or.inr hall
  rw [if_pos hcond]

/-- Witness for C5 at a concrete input: a mapping whose only value is the
empty string leaves the candidate list unchanged. -/
theorem c5_witness :
    (∀ p ∈ c5Cats, p.2 = "") ∧
      filter_by_categories c5Results c5Cats = c5Results :=
  ⟨by decide, c5_filter_identity c5Results c5Cats (Or.inr (by decide))⟩

lemma search_by_keywords_eq (corpus : List Doc) (keywords : List String)
    (top_k : Nat) :
    search_by_keywords corpus keywords top_k =
      if keywords.isEmpty then []
      else
        ((((mostCommon (keywordScores corpus (keywords.map lowerString))
            (top_k * 2)).map Prod.fst).take top_k).filterMap
          (mkKwRecord corpus (keywordScores corpus (keywords.map lowerString)))) :=
  rfl

lemma kwSearch_pairwise (corpus : List Doc) (kws : List String) (k n : Nat) :
    List.Pairwise
      (fun a b => b.keyword_score.getD 0 ≤ a.keyword_score.getD 0)
      ((((mostCommon (keywordScores corpus kws) n).map Prod.fst).take k).filterMap
        (mkKwRecord corpus (keywordScores corpus kws))) := by
  rw [← List.map_take, List.filterMap_map, List.pairwise_filterMap]
  have hsub : ((mostCommon (keywordScores corpus kws) n).take k).Sublist
      (List.insertionSort cntGe (keywordScores corpus kws)) :=
    (List.take_sublist _ _).trans (List.take_sublist _ _)
  have hpair : List.Pairwise cntGe
      ((mostCommon (keywordScores corpus kws) n).take k) :=
    List.Pairwise.sublist hsub
      (List.sorted_insertionSort cntGe (keywordScores corpus kws))
  refine hpair.imp_of_mem ?_
  intro a b ha hb hab x hx y hy
  have hmema : a ∈ keywordScores corpus kws :=
    (List.perm_insertionSort cntGe _).subset (hsub.subset ha)
  have hmemb : b ∈ keywordScores corpus kws :=
    (List.perm_insertionSort cntGe _).subset (hsub.subset hb)
  have hxa : mkKwRecord corpus (keywordScores corpus kws) a.1 = some x :=
    Option.mem_def.1 hx
  have hyb : mkKwRecord corpus (keywordScores corpus kws) b.1 = some y :=
    Option.mem_def.1 hy
  obtain ⟨_, _, hxs, _⟩ := mkKwRecord_eq_some _ _ _ _ hxa
  obtain ⟨_, _, hys, _⟩ := mkKwRecord_eq_some _ _ _ _ hyb
  rw [hxs, hys]
  simp only [Option.getD_some]
  rw [lookupCount_of_mem _ a (keys_nodup_keywordScores corpus kws) hmema,
    lookupCount_of_mem _ b (keys_nodup_keywordScores corpus kws) hmemb]
  exact hab

/-- Claim C6 (amended): keyword search returns at most `k` candidates,
ordered by non-increasing `keyword_score`; tied candidates keep the order
in which the scorer first reached them, which is not in general ascending
index order (see the counterexample). -/
theorem c6_keyword_ranking (corpus : List Doc) (keywords : List String)
    (top_k : Nat) :
    (search_by_keywords corpus keywords top_k).length ≤ top_k ∧
    List.Pairwise
      (fun a b => b.keyword_score.getD 0 ≤ a.keyword_score.getD 0)
      (search_by_keywords corpus keywords top_k) := by
  rw [search_by_keywords_eq]
  split
  · simp
  · constructor
    · exact le_trans (List.length_filterMap_le _ _) (List.length_take_le _ _)
    · exact kwSearch_pairwise corpus (keywords.map lowerString) top_k
        (top_k * 2)

/-- Counterexample to claim C6 as stated: with keywords `["aa", "bb"]`
over `c6Corpus`, both documents score 1, but the returned order is
index 1 before index 0 (first-encounter order), violating the claimed
ascending-index tie-break. -/
theorem c6_cex :
    ¬ List.Pairwise kwClaimOrder (search_by_keywords c6Corpus ["aa", "bb"] 2) := by
  decide

/-- Claim C7 (amended): each candidate returned by keyword search has
`keyword_score` equal to the number of extracted-keyword *occurrences*
(with multiplicity, not distinct keywords) whose posting list contains
the candidate's index, and this score is at least 1. -/
theorem c7_keyword_score (corpus : List Doc) (keywords : List String)
    (top_k : Nat) (r : SongRec)
    (hr : r ∈ search_by_keywords corpus keywords top_k) :
    0 ≤ r.index ∧
    r.keyword_score = some (((keywords.map lowerString).filter
        (fun kw => decide (r.index.toNat ∈ postingList corpus kw))).length) ∧
    1 ≤ r.keyword_score.getD 0 := by
  obtain ⟨idx, hlt, hi, hmem, hks, hd⟩ :=
    search_by_keywords_spec corpus keywords top_k r hr
  have htn : r.index.toNat = idx := by
    rw [hi]
    exact Int.toNat_natCast idx
  refine ⟨by rw [hi]; exact Int.natCast_nonneg idx, ?_, ?_⟩
  · rw [hks, htn, lookupCount_keywordScores]
  · obtain ⟨p, hp, hpe⟩ := List.mem_map.1 hmem
    have hpos := count_pos_keywordScores corpus (keywords.map lowerString) p hp
    have hlm := lookupCount_of_mem _ p
      (keys_nodup_keywordScores corpus (keywords.map lowerString)) hp
    rw [hks]
    simp only [Option.getD_some]
    rw [← hpe, hlm]
    exact hpos

/-- Witness for C7 (amended) at a concrete input. -/
theorem c7_witness :
    (c7R ∈ search_by_keywords c7Corpus ["dog"] 5) ∧
    (0 ≤ c7R.index ∧
      c7R.keyword_score = some (((["dog"].map lowerString).filter
        (fun kw => decide (c7R.index.toNat ∈ postingList c7Corpus kw))).length) ∧
      1 ≤ c7R.keyword_score.getD 0) := by
  have hmem : c7R ∈ search_by_keywords c7Corpus ["dog"] 5 := by
    rw [show search_by_keywords c7Corpus ["dog"] 5 = [c7R] from rfl]
    exact List.mem_singleton_self _
  exact ⟨hmem, c7_keyword_score c7Corpus ["dog"] 5 c7R hmem⟩

/-- Counterexample to claim C7 as stated: the query "dog dog" extracts
the keyword "dog" twice, the single matching document gets
`keyword_score = 2`, while only 1 *distinct* extracted keyword matches
it. -/
theorem c7_cex :
    (search_by_keywords c7Corpus (extract_keywords "dog dog") 5).map
        SongRec.keyword_score = [some 2] ∧
      (((extract_keywords "dog dog").map lowerString).dedup.filter
        (fun kw => decide ((0 : Nat) ∈ postingList c7Corpus kw))).length = 1 := by
  constructor
  · decide
  · decide

/-- Claim C10: every candidate returned by keyword search carries the
synthetic distance `1 / (keyword_score + 1)`; and a fused record whose
index does not occur in the vector candidate list keeps the fields of a
keyword record (everything but `combined_score`), in particular that
synthetic distance, with which it then enters the final distance sort of
`retrieve`. -/
theorem c10_synthetic_distance (corpus : List Doc) (keywords : List String)
    (top_k : Nat) (vec kw : List SongRec) (r s : SongRec)
    (hr : r ∈ search_by_keywords corpus keywords top_k)
    (hs : s ∈ combine_results vec kw top_k)
    (hnv : s.index ∉ vec.map SongRec.index) :
    r.distance = some (1 / ((r.keyword_score.getD 0 : ℚ) + 1)) ∧
    ∃ rk ∈ kw, base s = base rk := by
  constructor
  · obtain ⟨idx, _, _, _, hks, hd⟩ :=
      search_by_keywords_spec corpus keywords top_k r hr
    rw [hd, hks]
    simp
  · exact combine_results_kw_only vec kw top_k s hs hnv

/-- Witness for C10 at a concrete input. -/
theorem c10_witness :
    (c10R ∈ search_by_keywords c10Corpus ["cat"] 3 ∧
      c10S ∈ combine_results [] [c10K] 3 ∧
      c10S.index ∉ ([] : List SongRec).map SongRec.index) ∧
    (c10R.distance = some (1 / ((c10R.keyword_score.getD 0 : ℚ) + 1)) ∧
      ∃ rk ∈ [c10K], base c10S = base rk) := by
  have h1 : c10R ∈ search_by_keywords c10Corpus ["cat"] 3 := by
    rw [show search_by_keywords c10Corpus ["cat"] 3 = [c10R] from rfl]
    exact List.mem_singleton_self _
  have h2 : c10S ∈ combine_results [] [c10K] 3 := by
    rw [show combine_results [] [c10K] 3 = [c10S] from rfl]
    exact List.mem_singleton_self _
  have h3 : c10S.index ∉ ([] : List SongRec).map SongRec.index := by simp
  exact ⟨⟨h1, h2, h3⟩,
    c10_synthetic_distance c10Corpus ["cat"] 3 [] [c10K] c10R c10S h1 h2 h3⟩

/-- Claim C9 (amended): `retrieve` performs no validation of `k` at all;
a call with `k = 0` silently returns the empty list rather than failing
(no `InvalidArgumentError` exists anywhere in the code). -/
theorem c9_no_validation (corpus : List Doc) (raw : List (Int × ℚ))
    (search_query : String) (categories : List (String × String))
    (use_hybrid : Bool) :
    retrieve corpus raw search_query 0 categories use_hybrid = [] := by
  unfold retrieve
  exact List.take_zero _

/-- Counterexample to claim C9 as stated: a concrete call with
`k = 0 < 1` returns normally (with the empty list); nothing fails and no
error value exists in the code. -/
theorem c9_cex :
    retrieve [⟨"hello", "", ""⟩] [((0 : Int), (0 : ℚ))] "hello there" 0 []
      true = [] := by
  unfold retrieve
  exact List.take_zero _

/-- Claim C1 (amended): the list `retrieve` returns is ordered by
ascending `distance` (a record without a distance sorts last) and
truncated to at most `k` records — for every call, whether or not fusion
ran; ordering by descending `combined_score` holds only for the
intermediate fused list inside `_combine_results`, before the final
distance sort. -/
theorem c1_final_ordering (corpus : List Doc) (raw : List (Int × ℚ))
    (search_query : String) (top_k : Nat)
    (categories : List (String × String)) (use_hybrid : Bool) :
    List.Pairwise distLe
        (retrieve corpus raw search_query top_k categories use_hybrid) ∧
      (retrieve corpus raw search_query top_k categories use_hybrid).length
        ≤ top_k := by
  unfold retrieve
  constructor
  · exact List.Pairwise.sublist (List.take_sublist _ _)
      (List.sorted_insertionSort distLe _)
  · exact List.length_take_le _ _

/-- Counterexample to claim C1 as stated: a hybrid call in which fusion
ran and every returned record has a fusion score, yet the returned order
is ascending in `combined_score` (document 0 at score 7/20 before
document 1 at score 23/60), because the final sort is by distance. -/
theorem c1_cex :
    (retrieve c1Corpus c1Raw "banana" 2 [] true).map SongRec.combined_score
        = [some (7 / 20), some (23 / 60)] ∧ ((7 : ℚ) / 20 < 23 / 60) := by
  have hc1 : combGe c1E1 c1EN := by
    unfold combGe scoreOf c1E1 c1EN
    norm_num
  have hc2 : ¬ combGe c1E0 c1E1 := by
    unfold combGe scoreOf c1E0 c1E1
    norm_num
  have hc3 : combGe c1E0 c1EN := by
    unfold combGe scoreOf c1E0 c1EN
    norm_num
  have hs1 : List.insertionSort combGe [c1E0, c1E1, c1EN]
      = [c1E1, c1E0, c1EN] := by
    have e2 : List.orderedInsert combGe c1E1 [c1EN] = [c1E1, c1EN] := by
      simp only [List.orderedInsert]
      rw [if_pos hc1]
    have e3 : List.orderedInsert combGe c1E0 [c1E1, c1EN]
        = [c1E1, c1E0, c1EN] := by
      simp only [List.orderedInsert]
      rw [if_neg hc2, if_pos hc3]
    calc List.insertionSort combGe [c1E0, c1E1, c1EN]
        = List.orderedInsert combGe c1E0
            (List.orderedInsert combGe c1E1
              (List.orderedInsert combGe c1EN [])) := rfl
      _ = List.orderedInsert combGe c1E0 [c1E1, c1EN] := by
            rw [show List.orderedInsert combGe c1EN [] = [c1EN] from rfl, e2]
      _ = [c1E1, c1E0, c1EN] := e3
  have hd1 : distLe c1E0 c1EN := by decide
  have hd2 : ¬ distLe c1E1 c1E0 := by decide
  have hd3 : distLe c1E1 c1EN := by decide
  have hs2 : List.insertionSort distLe [c1E1, c1E0, c1EN]
      = [c1E0, c1E1, c1EN] := by
    have f1 : List.orderedInsert distLe c1E0 [c1EN] = [c1E0, c1EN] := by
      simp only [List.orderedInsert]
      rw [if_pos hd1]
    have f2 : List.orderedInsert distLe c1E1 [c1E0, c1EN]
        = [c1E0, c1E1, c1EN] := by
      simp only [List.orderedInsert]
      rw [if_neg hd2, if_pos hd3]
    calc List.insertionSort distLe [c1E1, c1E0, c1EN]
        = List.orderedInsert distLe c1E1
            (List.orderedInsert distLe c1E0
              (List.orderedInsert distLe c1EN [])) := rfl
      _ = List.orderedInsert distLe c1E1 [c1E0, c1EN] := by
            rw [show List.orderedInsert distLe c1EN [] = [c1EN] from rfl, f1]
      _ = [c1E0, c1E1, c1EN] := f2
  have hret : retrieve c1Corpus c1Raw "banana" 2 [] true
      = (List.insertionSort distLe
          ((List.insertionSort combGe [c1E0, c1E1, c1EN]).take 4)).take 2 :=
    rfl
  rw [hret, hs1, show ([c1E1, c1E0, c1EN].take 4) = [c1E1, c1E0, c1EN] from
    rfl, hs2, show ([c1E0, c1E1, c1EN].take 2) = [c1E0, c1E1] from rfl]
  constructor
  · unfold c1E0 c1E1
    simp only [List.map]
    norm_num
  · norm_num

/-- Claim C2 / the code bug behind it: with a one-document corpus and the
FAISS response `[(0, 0), (-1, 1)]` (FAISS pads with label `-1` when asked
for more neighbors than the index holds, and `retrieve` asks for
`top_k * 3` or `top_k`), `retrieve` returns a second record whose `index`
is `-1` — not a valid corpus index — because `search_similar` checks only
the upper bound `idx_int < len(metadata)` before reading
`metadata[idx_int]`, and Python resolves `metadata[-1]` from the back.
The at-most-`topK` part of the claim does hold (2 records here). -/
theorem c2_invalid_index :
    (retrieve c2Corpus [((0 : Int), (0 : ℚ)), (-1, 1)] "query" 2 [] false).map
        SongRec.index = [0, -1] ∧ ((-1 : Int) < 0) := by
  constructor
  · decide
  · decide
